import Mathlib

/-!
Shallow embedding of the dependency risk-analysis pipeline of `app.py`
(Supply Chain Sentinel): manifest parsing, vulnerability fetching,
package-age lookup, typosquatting similarity, trust scoring and its
explanation, together with theorems settling the specification claims.

Strings manipulated by the parser are embedded as `List Char` (Python
`str` values); the external collaborators (HTTP, registry, the fuzzy
matching library) are embedded as explicit inputs.
-/

/-- Python `str.strip()`: drop whitespace from both ends. -/
def stripChars (l : List Char) : List Char :=
  ((l.dropWhile Char.isWhitespace).reverse.dropWhile Char.isWhitespace).reverse

/-- Python `line.split(sep, 1)` when `sep` occurs in `line`: split at the
first (leftmost) occurrence of `sep`; `none` when `sep` does not occur. -/
def splitFirst (sep : List Char) : List Char → Option (List Char × List Char)
  | [] => if sep.isEmpty then some ([], []) else none
  | c :: rest =>
    if sep.isPrefixOf (c :: rest) then some ([], (c :: rest).drop sep.length)
    else (splitFirst sep rest).map (fun ab => (c :: ab.1, ab.2))

/-- Python `str.splitlines()` restricted to the `\n`, `\r\n` and `\r`
line terminators; no trailing empty line for a terminated final line. -/
def pySplitlines : List Char → List (List Char)
  | [] => []
  | '\r' :: '\n' :: rest => [] :: pySplitlines rest
  | c :: rest =>
    if c = '\n' ∨ c = '\r' then [] :: pySplitlines rest
    else
      match pySplitlines rest with
      | [] => [[c]]
      | line :: lines => (c :: line) :: lines

/-- The fixed, ordered comparator token list of `parse_requirements`. -/
def SEPS : List (List Char) :=
  [['=', '='], ['>', '='], ['<', '='], ['~', '='], ['>']]

/-- The `for sep in [...]: if sep in line: ... break / else:` loop of
`parse_requirements`: try each separator in list order, split at the
first occurrence of the first separator present, trimming both parts;
fall through to a name-only declaration. -/
def trySeps : List (List Char) → List Char → List Char × Option (List Char)
  | [], line => (line, none)
  | sep :: rest, line =>
    match splitFirst sep line with
    | some ab => (stripChars ab.1, some (stripChars ab.2))
    | none => trySeps rest line

/-- One iteration of the `parse_requirements` loop body: strip the line,
skip it when empty or a comment, otherwise produce one declaration. -/
def parseLine (raw : List Char) : Option (List Char × Option (List Char)) :=
  let line := stripChars raw
  if line.isEmpty || line.head? == some '#' then none
  else some (trySeps SEPS line)

/-- `parse_requirements(file_content)` from `app.py`. -/
def parse_requirements (content : List Char) : List (List Char × Option (List Char)) :=
  (pySplitlines content).filterMap parseLine

/-- One vulnerability record of an OSV response: an identifier, a summary
and an optional severity text. -/
structure VulnerabilityRecord where
  vid : String
  summary : String
  severity : Option String
deriving DecidableEq

/-- Python `str(v.get("severity", ""))` for a string-or-missing severity. -/
def severityText (v : VulnerabilityRecord) : String :=
  v.severity.getD ""

/-- Python `pat in s` substring membership. -/
def strContains (pat s : String) : Bool :=
  (splitFirst pat.toList s.toList).isSome

/-- The critical-vulnerability condition shared by `calculate_trust_score`
and `score_breakdown`:
`any("CRITICAL" in str(v.get("severity", "")) for v in vulns)`. -/
def hasCritical (vulns : List VulnerabilityRecord) : Bool :=
  vulns.any (fun v => strContains "CRITICAL" (severityText v))

/-- The sequential deductions of `calculate_trust_score` before the final
`max(score, 0)`. -/
def raw_trust_score (vulns : List VulnerabilityRecord) (similarity : Int)
    (is_new : Bool) : Int :=
  let score : Int := 100
  let score := if hasCritical vulns then score - 20 else score
  let score := if 90 ≤ similarity then score - 50 else score
  let score := if is_new then score - 10 else score
  score

/-- `calculate_trust_score(vulns, similarity, is_new)` from `app.py`. -/
def calculate_trust_score (vulns : List VulnerabilityRecord) (similarity : Int)
    (is_new : Bool) : Int :=
  max (raw_trust_score vulns similarity is_new) 0

/-- `score_breakdown(vulns, similarity, is_new)` from `app.py`: the
conditionally appended reason lines, with the sentinel replacing an empty
list (`return reasons or [...]`). -/
def score_breakdown (vulns : List VulnerabilityRecord) (similarity : Int)
    (is_new : Bool) : List String :=
  let reasons : List String :=
    (if hasCritical vulns then ["−20: Critical vulnerabilities detected"] else []) ++
    (if 90 ≤ similarity then ["−50: Looks like a typo of a popular package"] else []) ++
    (if is_new then ["−10: Very new package (<30 days)"] else [])
  if reasons.isEmpty then ["No risk factors detected"] else reasons

/-- The fixed reference list `TOP_PACKAGES` of `app.py`. -/
def TOP_PACKAGES : List (List Char) :=
  ["requests", "flask", "django", "numpy", "pandas", "scipy",
   "matplotlib", "seaborn", "sqlalchemy", "fastapi", "pytest",
   "beautifulsoup4", "pillow", "opencv-python", "tensorflow",
   "torch", "scikit-learn", "celery", "redis", "uvicorn"].map String.toList

/-- Python `str.lower()` (ASCII names only in this pipeline). -/
def lowerChars (l : List Char) : List Char :=
  l.map Char.toLower

/-- Length of a longest common subsequence, with explicit fuel so that
the recursion is structural; each step consumes one unit of fuel and
shortens the combined input by at least one character. -/
def lcsFuel : Nat → List Char → List Char → Nat
  | 0, _, _ => 0
  | _, [], _ => 0
  | _, _, [] => 0
  | fuel + 1, a :: as, b :: bs =>
    if a = b then lcsFuel fuel as bs + 1
    else max (lcsFuel fuel as (b :: bs)) (lcsFuel fuel (a :: as) bs)

/-- Length of a longest common subsequence of two character lists. -/
def lcs (x y : List Char) : Nat :=
  lcsFuel (x.length + y.length) x y

/-- Python `round` on the rational `n / d` (`d > 0`): round half to even. -/
def pyRound (n d : Nat) : Nat :=
  let q := n / d
  let r := n % d
  if 2 * r < d then q
  else if d < 2 * r then q + 1
  else if q % 2 = 0 then q else q + 1

/-- The external fuzzy matcher `fuzz.ratio` of the `thefuzz` library
(not part of this repository): the rounded normalized Indel similarity,
`round(100 * 2 * lcs(a, b) / (len(a) + len(b)))`, and `100` when both
strings are empty. -/
def fuzzScore (a b : List Char) : Nat :=
  let s := a.length + b.length
  if s = 0 then 100 else pyRound (200 * lcs a b) s

/-- The loop body of `check_typosquatting`: update the running best score
and closest name when the new score strictly exceeds the best so far. -/
def typoStep (metric : List Char → List Char → Nat) (package : List Char)
    (acc : Nat × Option (List Char)) (popular : List Char) : Nat × Option (List Char) :=
  let score := metric (lowerChars package) (lowerChars popular)
  if acc.1 < score then (score, some popular) else acc

/-- `check_typosquatting(package)` from `app.py`, parameterized by the
external similarity metric (`fuzz.ratio` in the source): fold the update
loop over `TOP_PACKAGES` starting from `best_score = 0`, `closest = None`. -/
def check_typosquatting (metric : List Char → List Char → Nat)
    (package : List Char) : Nat × Option (List Char) :=
  TOP_PACKAGES.foldl (typoStep metric package) (0, none)

/-- The JSON body of a successful OSV response: the optional `"vulns"`
field (`.get("vulns", [])` in the source). -/
structure OsvBody where
  vulns : Option (List VulnerabilityRecord)
deriving DecidableEq

/-- The outcome of the HTTP POST inside `query_osv`: either the request
raised (network error, timeout), or a response arrived with a status code
and a body that may or may not be valid JSON (`none` when `r.json()`
raises). -/
inductive FetchOutcome where
  | netError : FetchOutcome
  | response : Nat → Option OsvBody → FetchOutcome
deriving DecidableEq

/-- `query_osv(package, version)` from `app.py`, with the HTTP exchange
embedded as its outcome: on a 200 response return the `"vulns"` field or
`[]`, on any other status return `[]`, and on any raised exception
(transport error or JSON decoding error) return `[]` via the
`except: return []` handler. -/
def query_osv (outcome : FetchOutcome) : List VulnerabilityRecord :=
  match outcome with
  | .netError => []
  | .response status body =>
    if status = 200 then
      match body with
      | none => []
      | some b => b.vulns.getD []
    else []

/-- A failing exchange in the sense of the spec: a raised transport
error, a non-success status, or a malformed (undecodable) payload. -/
def isFailedOutcome : FetchOutcome → Bool
  | .netError => true
  | .response status body => status ≠ 200 || body.isNone

/-- Python `dict` assignment `d[k] = v`: overwrite the existing entry for
`k` or append a new one, preserving insertion order. -/
def dictWrite (k : List Char) (v : List VulnerabilityRecord) :
    List (List Char × List VulnerabilityRecord) → List (List Char × List VulnerabilityRecord)
  | [] => [(k, v)]
  | (k2, v2) :: rest => if k2 = k then (k, v) :: rest else (k2, v2) :: dictWrite k v rest

/-- Python `d.get(k)`: the value stored at `k`, if any. -/
def dictGet (k : List Char) :
    List (List Char × List VulnerabilityRecord) → Option (List VulnerabilityRecord)
  | [] => none
  | (k2, v) :: rest => if k2 = k then some v else dictGet k rest

/-- `fetch_all_vulnerabilities(packages)` from `app.py`, with the
nondeterministic `as_completed` iteration embedded as an explicit
completion sequence (a permutation of the submitted `(pkg, ver)` pairs):
each completed fetch writes `results[pkg] = future.result()`, and the
mapping is returned only after the whole sequence has been consumed. -/
def fetch_all_vulnerabilities (fetch : List Char → Option (List Char) → List VulnerabilityRecord)
    (completed : List (List Char × Option (List Char))) :
    List (List Char × List VulnerabilityRecord) :=
  completed.foldl (fun d pv => dictWrite pv.1 (fetch pv.1 pv.2) d) []

/-- Number of writes the dispatcher issues to the key `k` while consuming
the completion sequence `completed`. -/
def writeCount (k : List Char) (completed : List (List Char × Option (List Char))) : Nat :=
  completed.countP (fun pv => pv.1 == k)

/-- Whether the results mapping holds an entry for key `k`. -/
def hasKey (k : List Char) (d : List (List Char × List VulnerabilityRecord)) : Bool :=
  (dictGet k d).isSome

/-- One published-artifact record of a PyPI `urls` array: its
`upload_time_iso_8601` timestamp, embedded as seconds since the epoch,
or `none` when the field is missing or unparsable. -/
structure Artifact where
  upload_time : Option Int
deriving DecidableEq

/-- The decoded JSON of a PyPI metadata response: the `urls` array. -/
structure PyPIData where
  urls : List Artifact
deriving DecidableEq

/-- `fetch_pypi_age(package)` from `app.py`, with the registry exchange
embedded as its decoded outcome (`none` when the request or JSON decoding
raised) and the current UTC instant as seconds since the epoch: take
`data["urls"][0]["upload_time_iso_8601"]` and return the `.days` field of
`now - upload_date`, i.e. the floor of the elapsed seconds over 86400;
every raised error (missing index, missing key, parse failure) is caught
and yields `None`. -/
def fetch_pypi_age (resp : Option PyPIData) (now : Int) : Option Int :=
  match resp with
  | none => none
  | some data =>
    match data.urls.head? with
    | none => none
    | some a =>
      match a.upload_time with
      | none => none
      | some t => some (Int.fdiv (now - t) 86400)

/-- The timestamp `fetch_pypi_age` actually consumes: the first artifact
entry of the response, when present. -/
def firstUpload (resp : Option PyPIData) : Option Int :=
  match resp with
  | none => none
  | some data => data.urls.head?.bind Artifact.upload_time

/-- Modelled from the spec (for comparison with `fetch_pypi_age`): the
integer-truncated days since the earliest recorded publish timestamp
across all published artifacts. -/
def spec_earliest_age (resp : Option PyPIData) (now : Int) : Option Int :=
  match resp with
  | none => none
  | some data =>
    ((data.urls.filterMap Artifact.upload_time).min?).map
      (fun t => Int.tdiv (now - t) 86400)

/-- One row of the per-package results table built by the main loop of
`app.py` (lines 153-171), restricted to the pipeline fields. -/
structure RiskRow where
  package : List Char
  version : List Char
  vulns : List VulnerabilityRecord
  vulnCount : Nat
  similarity : Nat
  closest : Option (List Char)
  age : Option Int
  score : Int
  explanation : List String
deriving DecidableEq

/-- Python `ver or "Any"`: `"Any"` replaces an absent or empty version. -/
def versionOrAny (ver : Option (List Char)) : List Char :=
  match ver with
  | none => "Any".toList
  | some v => if v = [] then "Any".toList else v

/-- Python `age is not None and age < 30`. -/
def isRecent (age : Option Int) : Bool :=
  match age with
  | none => false
  | some a => a < 30

/-- The `rows` loop of `app.py`: one row per parsed declaration, joining
the vulnerability mapping, the registry age, the similarity result and
the trust score plus its explanation. -/
def buildRows (metric : List Char → List Char → Nat)
    (vulnData : List (List Char × List VulnerabilityRecord))
    (ageResp : List Char → Option PyPIData) (now : Int)
    (packages : List (List Char × Option (List Char))) : List RiskRow :=
  packages.map (fun pv =>
    let vulns := (dictGet pv.1 vulnData).getD []
    let age := fetch_pypi_age (ageResp pv.1) now
    let st := check_typosquatting metric pv.1
    let is_new := isRecent age
    let score := calculate_trust_score vulns (st.1 : Int) is_new
    { package := pv.1
      version := versionOrAny pv.2
      vulns := vulns
      vulnCount := vulns.length
      similarity := st.1
      closest := st.2
      age := age
      score := score
      explanation := score_breakdown vulns (st.1 : Int) is_new })

/-- A stripped line survives the empty/comment filter of the parser. -/
def keepLine (l : List Char) : Bool :=
  !(l.isEmpty || l.head? == some '#')

theorem length_dropWhile_le (p : Char → Bool) (l : List Char) :
    (l.dropWhile p).length ≤ l.length := by
  induction l with
  | nil => simp
  | cons c t ih =>
    by_cases hc : p c <;> simp [List.dropWhile_cons, hc]
    omega

theorem dropWhile_idem (p : Char → Bool) (l : List Char) :
    (l.dropWhile p).dropWhile p = l.dropWhile p := by
  induction l with
  | nil => rfl
  | cons c t ih =>
    by_cases hc : p c
    · simp [List.dropWhile_cons, hc, ih]
    · simp [List.dropWhile_cons, hc]

theorem dropWhile_head_false (p : Char → Bool) (c : Char) (t : List Char)
    (h : List.dropWhile p (c :: t) = c :: t) : p c = false := by
  cases hpc : p c
  · rfl
  · exfalso
    rw [List.dropWhile_cons, if_pos hpc] at h
    have hle := length_dropWhile_le p t
    rw [h] at hle
    simp at hle

/-- Stripping is idempotent: a stripped line has no whitespace left to
remove at either end. -/
theorem stripChars_idem (l : List Char) : stripChars (stripChars l) = stripChars l := by
  have hmm : (l.dropWhile Char.isWhitespace).dropWhile Char.isWhitespace
      = l.dropWhile Char.isWhitespace := dropWhile_idem _ l
  have hss : ((l.dropWhile Char.isWhitespace).reverse.dropWhile Char.isWhitespace).dropWhile
        Char.isWhitespace
      = (l.dropWhile Char.isWhitespace).reverse.dropWhile Char.isWhitespace :=
    dropWhile_idem _ _
  have hA : (stripChars l).dropWhile Char.isWhitespace = stripChars l := by
    unfold stripChars
    cases hsr : ((l.dropWhile Char.isWhitespace).reverse.dropWhile Char.isWhitespace).reverse with
    | nil => simp
    | cons c tail =>
      have h1 : (l.dropWhile Char.isWhitespace).reverse
          = (l.dropWhile Char.isWhitespace).reverse.takeWhile Char.isWhitespace
            ++ (l.dropWhile Char.isWhitespace).reverse.dropWhile Char.isWhitespace :=
        (List.takeWhile_append_dropWhile _ _).symm
      have h2 : l.dropWhile Char.isWhitespace
          = ((l.dropWhile Char.isWhitespace).reverse.dropWhile Char.isWhitespace).reverse
            ++ ((l.dropWhile Char.isWhitespace).reverse.takeWhile Char.isWhitespace).reverse := by
        conv_lhs => rw [← List.reverse_reverse (l.dropWhile Char.isWhitespace), h1]
        rw [List.reverse_append]
      rw [hsr] at h2
      have hc : Char.isWhitespace c = false := by
        apply dropWhile_head_false Char.isWhitespace c
          (tail ++ ((l.dropWhile Char.isWhitespace).reverse.takeWhile Char.isWhitespace).reverse)
        rw [← List.cons_append, ← h2, hmm]
      simp [List.dropWhile_cons, hc]
  unfold stripChars
  rw [show stripChars l = ((l.dropWhile Char.isWhitespace).reverse.dropWhile
      Char.isWhitespace).reverse from rfl] at hA
  rw [hA, List.reverse_reverse, hss]

/-- SEPS separators are nonempty tokens. -/
theorem seps_ne_nil : ∀ sep ∈ SEPS, sep ≠ [] := by decide

/-- When `splitFirst` succeeds it has split at the leftmost occurrence of
the separator. -/
theorem splitFirst_eq_some (sep : List Char) (hsep : sep ≠ []) :
    ∀ l a b, splitFirst sep l = some (a, b) →
      l = a ++ sep ++ b ∧ ∀ a2 b2, l = a2 ++ sep ++ b2 → a.length ≤ a2.length := by
  intro l
  induction l with
  | nil =>
    intro a b h
    have : ¬ sep.isEmpty := by
      cases sep with
      | nil => exact absurd rfl hsep
      | cons x xs => simp
    simp [splitFirst, this] at h
  | cons c rest ih =>
    intro a b h
    by_cases hp : sep.isPrefixOf (c :: rest)
    · rw [splitFirst, if_pos hp] at h
      obtain ⟨t, ht⟩ := List.isPrefixOf_iff_prefix.mp hp
      simp only [Option.some.injEq, Prod.mk.injEq] at h
      obtain ⟨ha, hb⟩ := h
      subst ha
      constructor
      · rw [← hb, ← ht, List.drop_left]
        simp
      · intro a2 b2 _
        simp
    · rw [splitFirst, if_neg hp] at h
      rw [Option.map_eq_some'] at h
      obtain ⟨ab, hab, heq⟩ := h
      obtain ⟨h1, h2⟩ := ih ab.1 ab.2 (by rw [hab])
      simp only [Prod.mk.injEq] at heq
      obtain ⟨ha, hb⟩ := heq
      subst ha; subst hb
      constructor
      · rw [List.cons_append, List.cons_append, ← h1]
      · intro a2 b2 h3
        cases a2 with
        | nil =>
          exfalso
          apply hp
          apply List.isPrefixOf_iff_prefix.mpr
          exact ⟨b2, by simpa using h3.symm⟩
        | cons c2 a2t =>
          simp only [List.cons_append, List.cons.injEq] at h3
          have := h2 a2t b2 h3.2
          simp only [List.length_cons]
          omega

/-- When `splitFirst` fails the separator does not occur in the line. -/
theorem splitFirst_eq_none (sep : List Char) :
    ∀ l, splitFirst sep l = none → ∀ a b, l ≠ a ++ sep ++ b := by
  intro l
  induction l with
  | nil =>
    intro h a b heq
    have hne : ¬ sep.isEmpty := by
      intro hs
      simp [splitFirst, hs] at h
    have hlen := congrArg List.length heq
    simp only [List.length_append, List.length_nil] at hlen
    have hz : sep.length = 0 := by omega
    rw [List.length_eq_zero] at hz
    subst hz
    exact hne rfl
  | cons c rest ih =>
    intro h a b heq
    by_cases hp : sep.isPrefixOf (c :: rest)
    · rw [splitFirst, if_pos hp] at h
      exact Option.noConfusion h
    · rw [splitFirst, if_neg hp] at h
      rw [Option.map_eq_none'] at h
      cases a with
      | nil =>
        apply hp
        apply List.isPrefixOf_iff_prefix.mpr
        exact ⟨b, by simpa using heq.symm⟩
      | cons c2 a2t =>
        simp only [List.cons_append, List.cons.injEq] at heq
        exact ih h a2t b heq.2

/-- The separator loop splits with the first separator, in list-priority
order, for which `splitFirst` succeeds, and falls through otherwise. -/
theorem trySeps_spec (seps : List (List Char)) (l : List Char) :
    (seps.find? (fun sep => (splitFirst sep l).isSome) = none → trySeps seps l = (l, none)) ∧
    (∀ sep, seps.find? (fun sep => (splitFirst sep l).isSome) = some sep →
      ∃ a b, splitFirst sep l = some (a, b) ∧
        trySeps seps l = (stripChars a, some (stripChars b))) := by
  induction seps with
  | nil => exact ⟨fun _ => rfl, fun sep h => by simp at h⟩
  | cons sep0 rest ih =>
    cases hs : splitFirst sep0 l with
    | some ab =>
      have hfind : List.find? (fun sep => (splitFirst sep l).isSome) (sep0 :: rest)
          = some sep0 := by
        rw [List.find?_cons_of_pos]
        simp [hs]
      constructor
      · intro h
        rw [hfind] at h
        exact Option.noConfusion h
      · intro sep h
        rw [hfind] at h
        obtain rfl : sep0 = sep := by simpa using h
        refine ⟨ab.1, ab.2, by simpa using hs, ?_⟩
        rw [trySeps, hs]
    | none =>
      have hfind : List.find? (fun sep => (splitFirst sep l).isSome) (sep0 :: rest)
          = List.find? (fun sep => (splitFirst sep l).isSome) rest := by
        rw [List.find?_cons_of_neg]
        simp [hs]
      constructor
      · intro h
        rw [hfind] at h
        rw [trySeps, hs]
        exact ih.1 h
      · intro sep h
        rw [hfind] at h
        obtain ⟨a, b, h1, h2⟩ := ih.2 sep h
        refine ⟨a, b, h1, ?_⟩
        rw [trySeps, hs]
        exact h2

/-- Every result of the separator loop is either the name-only fallback
or a pair of stripped split parts. -/
theorem trySeps_shape (seps : List (List Char)) (l : List Char) :
    trySeps seps l = (l, none) ∨
      ∃ a b, trySeps seps l = (stripChars a, some (stripChars b)) := by
  induction seps with
  | nil => exact Or.inl rfl
  | cons sep0 rest ih =>
    cases hs : splitFirst sep0 l with
    | some ab =>
      right
      exact ⟨ab.1, ab.2, by rw [trySeps, hs]⟩
    | none =>
      rw [trySeps, hs]
      exact ih

/-- The parser loop produces exactly the kept stripped lines, mapped
through the separator loop. -/
theorem filterMap_parseLine (ls : List (List Char)) :
    ls.filterMap parseLine = ((ls.map stripChars).filter keepLine).map (trySeps SEPS) := by
  induction ls with
  | nil => rfl
  | cons raw rest ih =>
    by_cases hc : (stripChars raw).isEmpty || (stripChars raw).head? == some '#'
    · have hk : keepLine (stripChars raw) = false := by
        simp [keepLine, hc]
      simp [parseLine, hc, hk, ih]
    · have hk : keepLine (stripChars raw) = true := by
        simp only [keepLine, hc]
        rfl
      simp [parseLine, hc, hk, ih]

/-- C3: `parse_requirements` produces exactly one declaration per line
that, after trimming, is non-empty and does not begin with a comment
marker, in input order with duplicates preserved; hence the `rows` loop
produces exactly one risk record per such line, in the same order. -/
theorem parse_requirements_one_per_kept_line (content : List Char)
    (metric : List Char → List Char → Nat)
    (vulnData : List (List Char × List VulnerabilityRecord))
    (ageResp : List Char → Option PyPIData) (now : Int) :
    parse_requirements content =
      (((pySplitlines content).map stripChars).filter keepLine).map (trySeps SEPS) ∧
    (parse_requirements content).length =
      (((pySplitlines content).map stripChars).filter keepLine).length ∧
    (buildRows metric vulnData ageResp now (parse_requirements content)).length =
      (((pySplitlines content).map stripChars).filter keepLine).length := by
  have h := filterMap_parseLine (pySplitlines content)
  refine ⟨h, ?_, ?_⟩
  · rw [parse_requirements, h, List.length_map]
  · rw [buildRows, List.length_map, parse_requirements, h, List.length_map]

/-- C5: for a surviving line, the separator loop splits at the first
comparator token in the fixed priority order of `SEPS` (list order, not
leftmost position in the line), at that token's leftmost occurrence,
trimming both parts; when no token of `SEPS` occurs in the line, the
whole line becomes the name with the version constraint absent. -/
theorem trySeps_priority_split :
    (∀ l : List Char, (∀ sep ∈ SEPS, ∀ a b, l ≠ a ++ sep ++ b) →
      trySeps SEPS l = (l, none)) ∧
    (∀ l sep : List Char, SEPS.find? (fun s => (splitFirst s l).isSome) = some sep →
      ∃ a b, splitFirst sep l = some (a, b) ∧ l = a ++ sep ++ b ∧
        (∀ a2 b2, l = a2 ++ sep ++ b2 → a.length ≤ a2.length) ∧
        trySeps SEPS l = (stripChars a, some (stripChars b))) := by
  constructor
  · intro l hnone
    apply (trySeps_spec SEPS l).1
    rw [List.find?_eq_none]
    intro sep hsep
    cases hs : splitFirst sep l with
    | none => simp
    | some ab =>
      exfalso
      obtain ⟨hocc, _⟩ := splitFirst_eq_some sep (seps_ne_nil sep hsep) l ab.1 ab.2
        (by simpa using hs)
      exact hnone sep hsep ab.1 ab.2 hocc
  · intro l sep hfind
    obtain ⟨a, b, h1, h2⟩ := (trySeps_spec SEPS l).2 sep hfind
    have hmem : sep ∈ SEPS := List.mem_of_find?_eq_some hfind
    obtain ⟨hocc, hmin⟩ := splitFirst_eq_some sep (seps_ne_nil sep hmem) l a b h1
    exact ⟨a, b, h1, hocc, hmin, h2⟩

/-- Witness for C5: a line holding both `>=` (leftmost) and `==` splits
on `==`, the first token in priority order; a line with no token becomes
a name-only declaration. -/
theorem trySeps_priority_split_witness :
    trySeps SEPS ("x>=1==2".toList) = ("x>=1".toList, some ("2".toList)) ∧
    trySeps SEPS ("plain".toList) = ("plain".toList, none) := by
  constructor
  · obtain ⟨a, b, h1, _, _, h4⟩ :=
      trySeps_priority_split.2 ("x>=1==2".toList) ("==".toList) (by decide)
    have e : splitFirst ("==".toList) ("x>=1==2".toList)
        = some ("x>=1".toList, "2".toList) := by decide
    rw [e] at h1
    simp only [Option.some.injEq, Prod.mk.injEq] at h1
    obtain ⟨rfl, rfl⟩ := h1
    exact h4.trans (by decide)
  · apply trySeps_priority_split.1
    intro sep hsep a b heq
    apply splitFirst_eq_none sep ("plain".toList) ?_ a b heq
    fin_cases hsep <;> decide

/-- C9 counterexample: the declaration parsed from the manifest `==1.0`
has an empty name, so not every produced declaration has a non-empty
name. -/
theorem parse_requirements_nonempty_name_cex :
    parse_requirements ("==1.0".toList) = [([], some ("1.0".toList))] ∧
    ¬ ∀ p ∈ parse_requirements ("==1.0".toList), p.1 ≠ [] := by
  constructor
  · decide
  · intro h
    exact h ([], some ("1.0".toList)) (by decide) rfl

/-- C9 amended: every declaration produced by `parse_requirements` has a
trimmed name (stripping it again changes nothing), and the name is
non-empty whenever the version constraint is absent; a declaration whose
line starts with a comparator token may carry an empty name. -/
theorem parse_requirements_name_trimmed (content : List Char)
    (p : List Char × Option (List Char)) (hp : p ∈ parse_requirements content) :
    stripChars p.1 = p.1 ∧ (p.2 = none → p.1 ≠ []) := by
  obtain ⟨raw, _, hparse⟩ := List.mem_filterMap.mp hp
  unfold parseLine at hparse
  by_cases hc : (stripChars raw).isEmpty || (stripChars raw).head? == some '#'
  · simp [hc] at hparse
  · simp only [hc, if_false, Bool.false_eq_true, Option.some.injEq] at hparse
    have hne : stripChars raw ≠ [] := by
      intro h
      rw [h] at hc
      simp at hc
    rcases trySeps_shape SEPS (stripChars raw) with h | ⟨a, b, h⟩
    · rw [h] at hparse
      rw [← hparse]
      exact ⟨stripChars_idem raw, fun _ => hne⟩
    · rw [h] at hparse
      rw [← hparse]
      refine ⟨stripChars_idem a, ?_⟩
      intro hcontra
      exact Option.noConfusion hcontra

/-- Witness for C9 (amended): the declaration parsed from `pkg` has the
trimmed, non-empty name `pkg`. -/
theorem parse_requirements_name_trimmed_witness :
    stripChars (("pkg".toList, (none : Option (List Char))).1)
        = ("pkg".toList, (none : Option (List Char))).1 ∧
      ((("pkg".toList, (none : Option (List Char))).2 = none) →
        ("pkg".toList, (none : Option (List Char))).1 ≠ []) :=
  parse_requirements_name_trimmed ("pkg".toList) ("pkg".toList, none) (by decide)

/-- C1: `calculate_trust_score` is exactly `max 0 (100 - total)` where
`total` sums the applicable deductions (20 for a CRITICAL severity, 50
for similarity at least 90, 10 for a new package), and the result always
lies in the interval `[0, 100]`. -/
theorem calculate_trust_score_spec (vulns : List VulnerabilityRecord)
    (similarity : Int) (is_new : Bool) :
    calculate_trust_score vulns similarity is_new =
      max (100 - ((if hasCritical vulns then 20 else 0) +
        (if 90 ≤ similarity then 50 else 0) + (if is_new then 10 else 0))) 0 ∧
    0 ≤ calculate_trust_score vulns similarity is_new ∧
    calculate_trust_score vulns similarity is_new ≤ 100 := by
  unfold calculate_trust_score raw_trust_score
  cases hasCritical vulns <;> cases is_new <;>
    by_cases h : (90 : Int) ≤ similarity <;> simp [h]

/-- C10: all three deductions together subtract only 80, so the raw score
is at least 20, the `max(score, 0)` floor never decides the result, and
no score in the open interval `(0, 20)` can occur. -/
theorem calculate_trust_score_at_least_20 (vulns : List VulnerabilityRecord)
    (similarity : Int) (is_new : Bool) :
    20 ≤ raw_trust_score vulns similarity is_new ∧
    calculate_trust_score vulns similarity is_new = raw_trust_score vulns similarity is_new ∧
    20 ≤ calculate_trust_score vulns similarity is_new ∧
    ¬ (0 < calculate_trust_score vulns similarity is_new ∧
        calculate_trust_score vulns similarity is_new < 20) := by
  unfold calculate_trust_score raw_trust_score
  cases hasCritical vulns <;> cases is_new <;>
    by_cases h : (90 : Int) ≤ similarity <;> simp [h]

/-- C2: the conditions firing in `calculate_trust_score` are exactly the
conditions producing lines in `score_breakdown`: the score equals 100
minus the sum over firing conditions, the non-sentinel line count equals
the number of firing conditions, the lines appear in the fixed order
vulnerability, similarity, age, and when nothing fires the breakdown is
exactly the single sentinel line. -/
theorem score_breakdown_consistent (vulns : List VulnerabilityRecord)
    (similarity : Int) (is_new : Bool) :
    calculate_trust_score vulns similarity is_new =
      100 - ((if hasCritical vulns then (20 : Int) else 0) +
        (if 90 ≤ similarity then 50 else 0) + (if is_new then 10 else 0)) ∧
    (hasCritical vulns = false → ¬ 90 ≤ similarity → is_new = false →
      score_breakdown vulns similarity is_new = ["No risk factors detected"]) ∧
    ((hasCritical vulns = true ∨ 90 ≤ similarity ∨ is_new = true) →
      score_breakdown vulns similarity is_new =
        (if hasCritical vulns then ["−20: Critical vulnerabilities detected"] else []) ++
        (if 90 ≤ similarity then ["−50: Looks like a typo of a popular package"] else []) ++
        (if is_new then ["−10: Very new package (<30 days)"] else []) ∧
      (score_breakdown vulns similarity is_new).length =
        ((if hasCritical vulns then 1 else 0) +
          (if 90 ≤ similarity then 1 else 0) + (if is_new then 1 else 0)) ∧
      "No risk factors detected" ∉ score_breakdown vulns similarity is_new) := by
  unfold calculate_trust_score raw_trust_score score_breakdown
  cases hasCritical vulns <;> cases is_new <;>
    by_cases h : (90 : Int) ≤ similarity <;>
    simp [h]

/-- Witness for C2: with a similarity of 95 exactly the similarity line
is produced, and with no firing condition only the sentinel appears. -/
theorem score_breakdown_consistent_witness :
    score_breakdown [] 95 false = ["−50: Looks like a typo of a popular package"] ∧
    score_breakdown [] 10 false = ["No risk factors detected"] := by
  constructor
  · have h := (score_breakdown_consistent [] 95 false).2.2
      (Or.inr (Or.inl (by decide)))
    rw [h.1]
    decide
  · exact (score_breakdown_consistent [] 10 false).2.1 (by decide) (by decide) rfl

/-- The running maximum the `check_typosquatting` loop maintains in
`best_score`. -/
def bestScore (metric : List Char → List Char → Nat) (package : List Char)
    (l : List (List Char)) (b : Nat) : Nat :=
  l.foldl (fun acc p => max acc (metric (lowerChars package) (lowerChars p))) b

theorem le_bestScore (metric : List Char → List Char → Nat) (package : List Char) :
    ∀ (l : List (List Char)) (b : Nat), b ≤ bestScore metric package l b := by
  intro l
  induction l with
  | nil => intro b; exact Nat.le_refl b
  | cons p t ih =>
    intro b
    calc b ≤ max b (metric (lowerChars package) (lowerChars p)) := Nat.le_max_left _ _
    _ ≤ bestScore metric package t
        (max b (metric (lowerChars package) (lowerChars p))) := ih _

theorem bestScore_is_ub (metric : List Char → List Char → Nat) (package : List Char) :
    ∀ (l : List (List Char)) (b : Nat) (p : List Char), p ∈ l →
      metric (lowerChars package) (lowerChars p) ≤ bestScore metric package l b := by
  intro l
  induction l with
  | nil => intro b p hp; exact absurd hp (List.not_mem_nil p)
  | cons q t ih =>
    intro b p hp
    rcases List.mem_cons.mp hp with rfl | hp
    · calc metric (lowerChars package) (lowerChars p)
          ≤ max b (metric (lowerChars package) (lowerChars p)) := Nat.le_max_right _ _
      _ ≤ bestScore metric package t _ := le_bestScore metric package t _
    · exact ih _ p hp

/-- Invariant of the strict-improvement fold of `check_typosquatting`:
the first component is the running maximum, and the second names the
first entry attaining it when the loop ever improved on its seed, and
keeps the seed value otherwise. -/
theorem typoLoop_spec (metric : List Char → List Char → Nat) (package : List Char) :
    ∀ (l : List (List Char)) (b : Nat) (c : Option (List Char)),
      (l.foldl (typoStep metric package) (b, c)).1 = bestScore metric package l b ∧
      (l.foldl (typoStep metric package) (b, c)).2 =
        (if bestScore metric package l b = b then c
         else l.find? (fun p =>
           metric (lowerChars package) (lowerChars p) == bestScore metric package l b)) := by
  intro l
  induction l with
  | nil => intro b c; exact ⟨rfl, by simp [bestScore]⟩
  | cons p t ih =>
    intro b c
    by_cases hs : b < metric (lowerChars package) (lowerChars p)
    · have hstep : typoStep metric package (b, c) p
          = (metric (lowerChars package) (lowerChars p), some p) := by
        simp [typoStep, hs]
      have hmax : max b (metric (lowerChars package) (lowerChars p))
          = metric (lowerChars package) (lowerChars p) := Nat.max_eq_right (Nat.le_of_lt hs)
      have hcons : bestScore metric package (p :: t) b
          = bestScore metric package t (metric (lowerChars package) (lowerChars p)) := by
        simp [bestScore, hmax]
      obtain ⟨ih1, ih2⟩ := ih (metric (lowerChars package) (lowerChars p)) (some p)
      have hgt : b < bestScore metric package t (metric (lowerChars package) (lowerChars p)) :=
        Nat.lt_of_lt_of_le hs (le_bestScore metric package t _)
      have hne : ¬ bestScore metric package t (metric (lowerChars package) (lowerChars p))
          = b := by omega
      constructor
      · rw [List.foldl_cons, hstep, ih1, hcons]
      · rw [List.foldl_cons, hstep, ih2, hcons, if_neg hne]
        by_cases he : bestScore metric package t (metric (lowerChars package) (lowerChars p))
            = metric (lowerChars package) (lowerChars p)
        · rw [if_pos he]
          have hhead : List.find? (fun q =>
              metric (lowerChars package) (lowerChars q)
                == bestScore metric package t (metric (lowerChars package) (lowerChars p)))
              (p :: t) = some p := by
            rw [List.find?_cons_of_pos]
            simp [he]
          rw [hhead]
        · rw [if_neg he]
          have hhead : List.find? (fun q =>
              metric (lowerChars package) (lowerChars q)
                == bestScore metric package t (metric (lowerChars package) (lowerChars p)))
              (p :: t) = List.find? (fun q =>
              metric (lowerChars package) (lowerChars q)
                == bestScore metric package t (metric (lowerChars package) (lowerChars p)))
              t := by
            rw [List.find?_cons_of_neg]
            simp only [beq_iff_eq]
            omega
          rw [hhead]
    · have hstep : typoStep metric package (b, c) p = (b, c) := by
        simp [typoStep, hs]
      have hmax : max b (metric (lowerChars package) (lowerChars p)) = b :=
        Nat.max_eq_left (Nat.le_of_not_lt hs)
      have hcons : bestScore metric package (p :: t) b = bestScore metric package t b := by
        simp [bestScore, hmax]
      obtain ⟨ih1, ih2⟩ := ih b c
      constructor
      · rw [List.foldl_cons, hstep, ih1, hcons]
      · rw [List.foldl_cons, hstep, ih2, hcons]
        by_cases he : bestScore metric package t b = b
        · rw [if_pos he, if_pos he]
        · rw [if_neg he, if_neg he]
          rw [List.find?_cons_of_neg]
          have := le_bestScore metric package t b
          simp only [beq_iff_eq]
          omega

/-- C6 counterexample: for the package name `z`, whose similarity to
every reference name is 0, `check_typosquatting` returns score 0 with no
closest name at all, so the returned name is not a string from the
reference list. -/
theorem check_typosquatting_none_cex :
    check_typosquatting fuzzScore ("z".toList) = (0, none) ∧
    ∀ name ∈ TOP_PACKAGES, (check_typosquatting fuzzScore ("z".toList)).2 ≠ some name := by
  exact ⟨by decide, by decide⟩

/-- C6 amended: `check_typosquatting` returns the maximum similarity
score over the reference list together with the first reference name
achieving that maximum — except when the maximum is 0 (never exceeding
the initial best score), in which case the returned name is `None`. -/
theorem check_typosquatting_spec (metric : List Char → List Char → Nat)
    (package : List Char) :
    (check_typosquatting metric package).1 = bestScore metric package TOP_PACKAGES 0 ∧
    (∀ p ∈ TOP_PACKAGES,
      metric (lowerChars package) (lowerChars p) ≤ (check_typosquatting metric package).1) ∧
    ((check_typosquatting metric package).1 = 0 →
      (check_typosquatting metric package).2 = none) ∧
    (0 < (check_typosquatting metric package).1 →
      (check_typosquatting metric package).2 =
        TOP_PACKAGES.find? (fun p =>
          metric (lowerChars package) (lowerChars p)
            == (check_typosquatting metric package).1)) := by
  obtain ⟨h1, h2⟩ := typoLoop_spec metric package TOP_PACKAGES 0 none
  have e : check_typosquatting metric package
      = TOP_PACKAGES.foldl (typoStep metric package) (0, none) := rfl
  rw [e]
  refine ⟨h1, ?_, ?_, ?_⟩
  · intro p hp
    rw [h1]
    exact bestScore_is_ub metric package TOP_PACKAGES 0 p hp
  · intro hz
    rw [h1] at hz
    rw [h2, if_pos hz]
  · intro hpos
    rw [h1] at hpos
    rw [h2, h1, if_neg (by omega)]

/-- Witness for C6 (amended): under a metric scoring each reference name
by its length, the first longest reference name is returned; under the
real fuzzy metric the all-zero package `z` yields no name. -/
theorem check_typosquatting_spec_witness :
    (check_typosquatting (fun _ y => y.length) ("z".toList)).2
        = some ("beautifulsoup4".toList) ∧
    (check_typosquatting fuzzScore ("z".toList)).2 = none := by
  constructor
  · rw [(check_typosquatting_spec (fun _ y => y.length) ("z".toList)).2.2.2 (by decide)]
    decide
  · exact (check_typosquatting_spec fuzzScore ("z".toList)).2.2.1 (by decide)

theorem hasKey_dictWrite (k k2 : List Char) (v : List VulnerabilityRecord)
    (d : List (List Char × List VulnerabilityRecord)) :
    hasKey k (dictWrite k2 v d) = true ↔ (k2 = k ∨ hasKey k d = true) := by
  induction d with
  | nil =>
    by_cases h : k2 = k <;> simp [dictWrite, dictGet, hasKey, h]
  | cons e rest ih =>
    obtain ⟨k3, v3⟩ := e
    by_cases h1 : k3 = k2
    · by_cases h2 : k2 = k
      · have h3 : k3 = k := h2 ▸ h1
        simp [dictWrite, dictGet, hasKey, h1, h2, h3]
      · have h3 : ¬ k3 = k := fun hc => h2 ((h1.symm.trans hc))
        simp [dictWrite, dictGet, hasKey, h1, h2, h3]
    · by_cases h2 : k3 = k
      · have h2k : ¬ k = k2 := fun hc => h1 (h2.trans hc)
        simp [dictWrite, dictGet, hasKey, h1, h2, h2k]
      · simp only [dictWrite, if_neg h1]
        simp only [hasKey, dictGet, if_neg h2] at ih ⊢
        exact ih

theorem mem_dictWrite (k : List Char) (v : List VulnerabilityRecord)
    (d : List (List Char × List VulnerabilityRecord))
    (e : List Char × List VulnerabilityRecord) :
    e ∈ dictWrite k v d → e = (k, v) ∨ e ∈ d := by
  induction d with
  | nil =>
    intro h
    simp [dictWrite] at h
    exact Or.inl h
  | cons e2 rest ih =>
    obtain ⟨k3, v3⟩ := e2
    intro h
    by_cases h1 : k3 = k
    · rw [dictWrite, if_pos h1] at h
      rcases List.mem_cons.mp h with h | h
      · exact Or.inl h
      · exact Or.inr (List.mem_cons_of_mem _ h)
    · rw [dictWrite, if_neg h1] at h
      rcases List.mem_cons.mp h with h | h
      · exact Or.inr (List.mem_cons.mpr (Or.inl h))
      · rcases ih h with h | h
        · exact Or.inl h
        · exact Or.inr (List.mem_cons_of_mem _ h)

/-- Keys present in the dispatcher's results mapping are exactly the seed
keys plus the names of the completed fetches. -/
theorem hasKey_dispatcher (fetch : List Char → Option (List Char) → List VulnerabilityRecord) :
    ∀ (completed : List (List Char × Option (List Char)))
      (d : List (List Char × List VulnerabilityRecord)) (k : List Char),
      hasKey k (completed.foldl (fun d pv => dictWrite pv.1 (fetch pv.1 pv.2) d) d) = true ↔
        (hasKey k d = true ∨ ∃ pv ∈ completed, pv.1 = k) := by
  intro completed
  induction completed with
  | nil => intro d k; simp
  | cons pv t ih =>
    intro d k
    rw [List.foldl_cons]
    rw [ih (dictWrite pv.1 (fetch pv.1 pv.2) d) k]
    rw [hasKey_dictWrite]
    constructor
    · rintro ((h | h) | h)
      · exact Or.inr ⟨pv, List.mem_cons_self _ _, h⟩
      · exact Or.inl h
      · obtain ⟨qv, hq, hk⟩ := h
        exact Or.inr ⟨qv, List.mem_cons_of_mem _ hq, hk⟩
    · rintro (h | ⟨qv, hq, hk⟩)
      · exact Or.inl (Or.inr h)
      · rcases List.mem_cons.mp hq with rfl | hq
        · exact Or.inl (Or.inl hk)
        · exact Or.inr ⟨qv, hq, hk⟩

/-- All values held by the dispatcher's results mapping come from the
seed or from a fetch result. -/
theorem dispatcher_values (fetch : List Char → Option (List Char) → List VulnerabilityRecord)
    (hfetch : ∀ p v, fetch p v = []) :
    ∀ (completed : List (List Char × Option (List Char)))
      (d : List (List Char × List VulnerabilityRecord)),
      (∀ e ∈ d, e.2 = []) →
      ∀ e ∈ completed.foldl (fun d pv => dictWrite pv.1 (fetch pv.1 pv.2) d) d, e.2 = [] := by
  intro completed
  induction completed with
  | nil => intro d hd e he; exact hd e he
  | cons pv t ih =>
    intro d hd e he
    rw [List.foldl_cons] at he
    refine ih (dictWrite pv.1 (fetch pv.1 pv.2) d) ?_ e he
    intro e2 he2
    rcases mem_dictWrite _ _ _ _ he2 with h | h
    · rw [h, hfetch]
    · exact hd e2 h

theorem dictGet_mem (k : List Char) :
    ∀ (d : List (List Char × List VulnerabilityRecord)) (v : List VulnerabilityRecord),
      dictGet k d = some v → (k, v) ∈ d := by
  intro d
  induction d with
  | nil => intro v h; exact Option.noConfusion h
  | cons e rest ih =>
    obtain ⟨k3, v3⟩ := e
    intro v h
    rw [dictGet] at h
    by_cases h1 : k3 = k
    · rw [if_pos h1] at h
      obtain rfl : v3 = v := by simpa using h
      subst h1
      exact List.mem_cons_self _ _
    · rw [if_neg h1] at h
      exact List.mem_cons_of_mem _ (ih v h)

/-- C8 counterexample: a batch declaring the same package name twice
makes the dispatcher write the results mapping twice under that key, so
the mapping is not written exactly once per package key. -/
theorem fetch_all_vulnerabilities_duplicate_write_cex :
    List.Perm [("a".toList, (none : Option (List Char))), ("a".toList, some ("1".toList))]
      [("a".toList, none), ("a".toList, some ("1".toList))] ∧
    writeCount ("a".toList)
      [("a".toList, (none : Option (List Char))), ("a".toList, some ("1".toList))] = 2 := by
  exact ⟨List.Perm.refl _, by decide⟩

/-- In a duplicate-free name list a declared name is counted once. -/
theorem countP_eq_one_of_nodup_mem (names : List (List Char)) (k : List Char)
    (hnodup : names.Nodup) (hmem : k ∈ names) :
    names.countP (fun n => n == k) = 1 := by
  induction names with
  | nil => exact absurd hmem (List.not_mem_nil k)
  | cons n t ih =>
    rw [List.nodup_cons] at hnodup
    rw [List.countP_cons]
    rcases List.mem_cons.mp hmem with rfl | hmem
    · have hz : t.countP (fun m => m == k) = 0 := by
        rw [List.countP_eq_zero]
        intro a ha
        simp only [beq_iff_eq]
        intro hc
        exact hnodup.1 (hc ▸ ha)
      simp [hz]
    · have hne : ¬ n = k := fun hc => hnodup.1 (hc ▸ hmem)
      simp [ih hnodup.2 hmem, hne]

/-- C8 amended: for any completion order of the submitted fetches, the
results mapping returned by `fetch_all_vulnerabilities` (only after the
whole completion sequence is consumed) has an entry for every declared
package name, and the number of writes under a key equals the number of
declarations bearing that name — so each key is written exactly once
precisely when the declared names are pairwise distinct, while duplicate
declarations write the same key repeatedly. -/
theorem fetch_all_vulnerabilities_writes
    (fetch : List Char → Option (List Char) → List VulnerabilityRecord)
    (packages completed : List (List Char × Option (List Char)))
    (hperm : completed.Perm packages) :
    (∀ pv ∈ packages, hasKey pv.1 (fetch_all_vulnerabilities fetch completed) = true) ∧
    (∀ k, writeCount k completed = packages.countP (fun pv => pv.1 == k)) ∧
    ((packages.map Prod.fst).Nodup →
      ∀ pv ∈ packages, writeCount pv.1 completed = 1) := by
  have hcount : ∀ k, writeCount k completed = packages.countP (fun pv => pv.1 == k) := by
    intro k
    rw [writeCount]
    exact hperm.countP_eq (fun pv => pv.1 == k)
  refine ⟨?_, hcount, ?_⟩
  · intro pv hpv
    rw [fetch_all_vulnerabilities, hasKey_dispatcher]
    exact Or.inr ⟨pv, hperm.mem_iff.mpr hpv, rfl⟩
  · intro hnodup pv hpv
    rw [hcount pv.1]
    have h1 : packages.countP (fun qv => qv.1 == pv.1)
        = (packages.map Prod.fst).countP (fun n => n == pv.1) := by
      rw [List.countP_map]
      rfl
    rw [h1]
    exact countP_eq_one_of_nodup_mem (packages.map Prod.fst) pv.1 hnodup
      (List.mem_map.mpr ⟨pv, hpv, rfl⟩)

/-- Witness for C8 (amended): a two-package batch completing in reversed
order still produces one entry and exactly one write per package name. -/
theorem fetch_all_vulnerabilities_writes_witness :
    hasKey ("a".toList)
      (fetch_all_vulnerabilities (fun _ _ => [])
        [("b".toList, (none : Option (List Char))), ("a".toList, none)]) = true ∧
    writeCount ("a".toList)
      [("b".toList, (none : Option (List Char))), ("a".toList, none)] = 1 := by
  have h := fetch_all_vulnerabilities_writes (fun _ _ => [])
    [("a".toList, none), ("b".toList, none)]
    [("b".toList, none), ("a".toList, none)] (by decide)
  exact ⟨h.1 ("a".toList, none) (by decide), h.2.2 (by decide) ("a".toList, none) (by decide)⟩

/-- C4: `query_osv` maps every failing exchange (raised transport error,
non-success status, malformed payload) to the empty list without raising,
so when the vulnerability collaborator always fails every resulting row
carries an empty vulnerability list and its trust score omits the
CRITICAL deduction. -/
theorem query_osv_fail_tolerance :
    (∀ o, isFailedOutcome o = true → query_osv o = []) ∧
    (∀ (outcomes : List Char → Option (List Char) → FetchOutcome)
       (packages completed : List (List Char × Option (List Char)))
       (metric : List Char → List Char → Nat)
       (ageResp : List Char → Option PyPIData) (now : Int),
      (∀ p v, isFailedOutcome (outcomes p v) = true) →
      ∀ row ∈ buildRows metric
          (fetch_all_vulnerabilities (fun p v => query_osv (outcomes p v)) completed)
          ageResp now packages,
        row.vulns = [] ∧ row.vulnCount = 0 ∧ hasCritical row.vulns = false ∧
        row.score = max (100 - ((if 90 ≤ (row.similarity : Int) then 50 else 0) +
          (if isRecent row.age then 10 else 0))) 0) := by
  have hfail : ∀ o, isFailedOutcome o = true → query_osv o = [] := by
    intro o h
    cases o with
    | netError => rfl
    | response status body =>
      by_cases hs : status = 200
      · subst hs
        cases body with
        | none => rfl
        | some b => simp [isFailedOutcome] at h
      · simp [query_osv, hs]
  refine ⟨hfail, ?_⟩
  intro outcomes packages completed metric ageResp now houtcomes row hrow
  obtain ⟨pv, _, hrow⟩ := List.mem_map.mp hrow
  have hvulns : (dictGet pv.1
      (fetch_all_vulnerabilities (fun p v => query_osv (outcomes p v)) completed)).getD []
      = [] := by
    cases hd : dictGet pv.1
        (fetch_all_vulnerabilities (fun p v => query_osv (outcomes p v)) completed) with
    | none => rfl
    | some v =>
      have hmem := dictGet_mem pv.1 _ v hd
      have := dispatcher_values (fun p v => query_osv (outcomes p v))
        (fun p v => hfail _ (houtcomes p v)) completed [] (by intro e he; simp at he)
        (pv.1, v) hmem
      simpa using this
  have hscore : ∀ (s : Int) (n : Bool), calculate_trust_score [] s n =
      max (100 - ((if 90 ≤ s then (50 : Int) else 0) + (if n then 10 else 0))) 0 := by
    intro s n
    unfold calculate_trust_score raw_trust_score
    cases n <;> by_cases h : (90 : Int) ≤ s <;> simp [hasCritical, h]
  rw [← hrow]
  simp [hvulns, hasCritical, hscore]

set_option maxRecDepth 8000 in
/-- Witness for C4: with a collaborator that always raises, the single
declared package `z` yields the failure-default row: no vulnerabilities,
similarity 0 with no match, no age, trust score 100. -/
theorem query_osv_fail_tolerance_witness :
    query_osv FetchOutcome.netError = [] ∧
    ({ package := "z".toList, version := "Any".toList, vulns := [], vulnCount := 0,
       similarity := 0, closest := none, age := none, score := 100,
       explanation := ["No risk factors detected"] } : RiskRow).vulns = [] := by
  constructor
  · exact query_osv_fail_tolerance.1 FetchOutcome.netError (by decide)
  · have h := query_osv_fail_tolerance.2 (fun _ _ => FetchOutcome.netError)
      [("z".toList, none)] [("z".toList, none)] fuzzScore (fun _ => none) 0
      (fun _ _ => rfl)
      { package := "z".toList, version := "Any".toList, vulns := [], vulnCount := 0,
        similarity := 0, closest := none, age := none, score := 100,
        explanation := ["No risk factors detected"] }
      (by decide)
    exact h.1

/-- C7 counterexample: with two artifacts whose first entry is 10 days
newer than the earliest one, `fetch_pypi_age` reports 90 days where the
earliest timestamp is 100 days old; and a first-entry timestamp one day
in the future yields the negative age -1. -/
theorem fetch_pypi_age_not_earliest_cex :
    fetch_pypi_age (some ⟨[⟨some 864000⟩, ⟨some 0⟩]⟩) 8640000 = some 90 ∧
    spec_earliest_age (some ⟨[⟨some 864000⟩, ⟨some 0⟩]⟩) 8640000 = some 100 ∧
    fetch_pypi_age (some ⟨[⟨some 86400⟩]⟩) 0 = some (-1) := by
  exact ⟨by decide, by decide, by decide⟩

/-- C7 amended: when the registry lookup succeeds, `fetch_pypi_age`
returns the floor of the elapsed days since the timestamp of the FIRST
artifact entry of the response (not the earliest across all artifacts);
whenever that timestamp does not lie in the future the value is
non-negative and floor and truncation agree; on any failure (no response,
no artifacts, missing timestamp) it returns `None`. -/
theorem fetch_pypi_age_first_artifact (resp : Option PyPIData) (now : Int) :
    (firstUpload resp = none → fetch_pypi_age resp now = none) ∧
    (∀ t, firstUpload resp = some t →
      fetch_pypi_age resp now = some ((now - t).fdiv 86400) ∧
      (t ≤ now → 0 ≤ (now - t).fdiv 86400 ∧
        (now - t).fdiv 86400 = (now - t).tdiv 86400)) := by
  constructor
  · intro h
    cases resp with
    | none => rfl
    | some data =>
      cases ha : data.urls.head? with
      | none => simp [fetch_pypi_age, ha]
      | some a =>
        cases ht : a.upload_time with
        | none => simp [fetch_pypi_age, ha, ht]
        | some t => simp [firstUpload, ha, ht] at h
  · intro t h
    cases resp with
    | none => exact Option.noConfusion h
    | some data =>
      cases ha : data.urls.head? with
      | none => simp [firstUpload, ha] at h
      | some a =>
        cases ht : a.upload_time with
        | none => simp [firstUpload, ha, ht] at h
        | some t0 =>
          simp only [firstUpload, ha, ht, Option.some_bind] at h
          obtain rfl : t0 = t := by simpa using h
          constructor
          · simp [fetch_pypi_age, ha, ht]
          · intro hle
            have hnn : (0 : Int) ≤ now - t0 := by omega
            constructor
            · exact Int.fdiv_nonneg hnn (by norm_num)
            · exact Int.fdiv_eq_tdiv hnn (by norm_num)

/-- Witness for C7 (amended): a single artifact published exactly one day
before now yields age 1, and a failed lookup yields no age. -/
theorem fetch_pypi_age_first_artifact_witness :
    fetch_pypi_age (some ⟨[⟨some 0⟩]⟩) 86400 = some 1 ∧
    fetch_pypi_age none 86400 = none := by
  constructor
  · have h := (fetch_pypi_age_first_artifact (some ⟨[⟨some 0⟩]⟩) 86400).2 0 (by decide)
    exact h.1.trans (by decide)
  · exact (fetch_pypi_age_first_artifact none 86400).1 (by decide)

